import Mathlib

/-!
Verification of the computation core of the safety-walks dashboard
(src/app.py).  The pandas/streamlit script is shallowly embedded:

* a data frame is a list of rows together with the list of column names
  present in the uploaded sheet (a lookup of an absent column raises
  `Err.keyError`, as `df[col]` does);
* a cell that pandas would read as NaN is `Option.none`;
* the walks-YTD cell before `pd.to_numeric(..., errors="coerce")` is a
  `RawWalks` value: a numeric value, non-numeric text, or a blank cell;
* the streamlit page is a list of `Event`s emitted in program order; an
  exception reaching the top-level `except Exception` handler (line 110)
  becomes a final `Event.errorMsg` after everything already rendered.
-/

namespace SafetyWalks

/-- Column name used at line 26 of app.py. -/
def walksCol : String := "# of Safety Walks Completed YTD"

/-- Column name used at lines 27 and 85 of app.py. -/
def unitCol : String := "Unit # - Unit Name"

/-- Column name used at line 28 of app.py. -/
def sectorCol : String := "Sector Name"

/-- Column name used at lines 35-36 and 73 of app.py. -/
def districtCol : String := "District"

/-- Column name used at line 85 of app.py. -/
def typeCol : String := "Unit Type"

/-- Raw content of the walks-YTD cell before line 26 runs:
a numeric value (`num i` is the integer it yields after `astype(int)`),
non-numeric text (which `errors="coerce"` turns into NaN), or a blank
cell (NaN). -/
inductive RawWalks
  | num (i : Int)
  | nonNum
  | missing
deriving DecidableEq

/-- One raw row of the Export sheet.  `none` models a NaN cell. -/
structure Row where
  unitLabel : Option String
  sectorName : Option String
  district : Option String
  unitType : Option String
  walksRaw : RawWalks
deriving DecidableEq

/-- Line 26: `pd.to_numeric(col, errors="coerce").fillna(0).astype(int)`.
Non-numeric text and blanks become NaN, then 0; numeric values pass
through unchanged (negative ones included). -/
def toWalks : RawWalks → Int
  | .num i => i
  | .nonNum => 0
  | .missing => 0

/-- A row after line 26 added the computed `Walks_YTD` column. -/
structure URec where
  unitLabel : Option String
  sectorName : Option String
  district : Option String
  unitType : Option String
  walksRaw : RawWalks
  walks : Int
deriving DecidableEq

/-- Attach the coerced `Walks_YTD` value to a row (line 26). -/
def mkRec (r : Row) : URec :=
  ⟨r.unitLabel, r.sectorName, r.district, r.unitType, r.walksRaw, toWalks r.walksRaw⟩

/-- Line 28 test: `df["Sector Name"].str.startswith("06-ESS", na=False)`.
A NaN sector gives `false` (the row is kept), as `na=False` specifies. -/
def isEss (r : URec) : Bool :=
  match r.sectorName with
  | some s => "06-ESS".toList.isPrefixOf s.toList
  | none => false

/-- Lines 26-28: add `Walks_YTD`, keep rows whose unit label is not NaN,
then drop rows whose sector name starts with the excluded marker. -/
def normalize (rows : List Row) : List URec :=
  ((rows.map mkRec).filter (fun r => r.unitLabel.isSome)).filter (fun r => !(isEss r))

/-- Chart segments emitted at lines 53-65 (overall) and 95-107 (per
district): either the pair (On Target, Excess) or (Completed, Remaining). -/
inductive ChartSegs
  | excessMode (onTarget excess : Int)
  | normalMode (completed remaining : Int)
deriving DecidableEq

/-- Lines 53-65 and 95-107: segment computation and mode choice. -/
def buildChart (actual target : Int) : ChartSegs :=
  if 0 < max (actual - target) 0 then
    ChartSegs.excessMode (min actual target) (max (actual - target) 0)
  else
    ChartSegs.normalMode (min actual target) (max (target - actual) 0)

/-- Strip leading and trailing whitespace, as Python `str.strip()` does. -/
def trimChars (l : List Char) : List Char :=
  ((l.dropWhile Char.isWhitespace).reverse.dropWhile Char.isWhitespace).reverse

/-- Characters after the last dash: Python `s.split("-")[-1]`.  If the
list has no dash this is the whole list. -/
def afterLastDash (l : List Char) : List Char :=
  l.foldl (fun acc c => if c = '-' then [] else acc ++ [c]) []

/-- Lines 37 and 74: `s.split("-")[-1].strip() if "-" in s else s`. -/
def dmName (s : String) : String :=
  if s.toList.contains '-' then String.mk (trimChars (afterLastDash s.toList)) else s

/-- Sort key of lines 35-38.  A NaN district fails `pd.notna` and keys as
`str(nan)`. -/
def districtKey : Option String → String
  | some s => dmName s
  | none => "nan"

/-- Boolean lexicographic comparison of character lists by code point:
exactly how Python compares the key strings in `sorted`. -/
def lexLe : List Char → List Char → Bool
  | [], _ => true
  | _ :: _, [] => false
  | a :: as, b :: bs => if a = b then lexLe as bs else decide (a < b)

/-- Comparison used to sort district keys (lines 35-38). -/
def keyLe (a b : Option String) : Bool :=
  lexLe (districtKey a).toList (districtKey b).toList

/-- Insert into a sorted list, stopping before the first element that is
not strictly smaller.  Building block of a stable sort. -/
def insertSorted (le : α → α → Bool) (a : α) : List α → List α
  | [] => [a]
  | b :: t => if le a b then a :: b :: t else b :: insertSorted le a t

/-- Stable sort (insertion sort).  Python `sorted` is guaranteed stable;
this realises the same specification. -/
def sortStable (le : α → α → Bool) : List α → List α
  | [] => []
  | x :: xs => insertSorted le x (sortStable le xs)

/-- Walk the list keeping each value not seen before. -/
def uniqueAux [DecidableEq α] (seen : List α) : List α → List α
  | [] => []
  | a :: l => if a ∈ seen then uniqueAux seen l else a :: uniqueAux (a :: seen) l

/-- First-occurrence deduplication: `pandas.Series.unique` keeps the
first occurrence of each distinct value, in input order. -/
def uniqueFirst [DecidableEq α] (l : List α) : List α :=
  uniqueAux [] l

/-- Lines 35-38: `sorted(df["District"].unique(), key=...)`. -/
def districtsOf (recs : List URec) : List (Option String) :=
  sortStable keyLe (uniqueFirst (recs.map (fun r => r.district)))

/-- pandas `==` on cells: NaN compares unequal to everything, including
NaN itself. -/
def eqPandas : Option String → Option String → Bool
  | some a, some b => decide (a = b)
  | _, _ => false

/-- Line 73: `df[df["District"] == district]`. -/
def groupOf (recs : List URec) (k : Option String) : List URec :=
  recs.filter (fun r => eqPandas r.district k)

/-- Lines 43 and 77: `df["Walks_YTD"].sum()`. -/
def sumWalks (recs : List URec) : Int :=
  (recs.map (fun r => r.walks)).sum

/-- Lines 85-86: members behind target, sorted ascending by `Walks_YTD`.
The column projection and rename of line 85-86 are not modelled: the
whole record is kept.  The model uses a stable sort for executability;
pandas `sort_values` defaults to `kind="quicksort"`, which promises
sortedness only, so no claim proof may rely on the tie order chosen
here. -/
def behindOf (g : List URec) (p : Int) : List URec :=
  sortStable (fun a b => decide (a.walks ≤ b.walks)) (g.filter (fun r => r.walks < p))

/-- The uploaded sheet: the set of columns it has, and its rows.  A
`Table` whose `cols` lack a name models a frame without that column; the
corresponding `Row` fields are then never read on the success path. -/
structure Table where
  cols : List String
  rows : List Row
deriving DecidableEq

/-- Exceptions the script can raise: `df[col]` on an absent column
(KeyError), and `"-" in district` on a NaN district at line 74
(TypeError: argument of type float is not iterable). -/
inductive Err
  | keyError (col : String)
  | typeErrorNan
deriving DecidableEq

/-- Everything the script renders, in program order. -/
inductive Event
  | overallSummary (units : Nat) (target actual : Int)
  | overallChart (c : ChartSegs)
  | sectionHeader (district : String) (units : Nat) (target actual : Int)
  | behindTable (rows : List URec)
  | allOnTarget
  | districtChart (name : String) (c : ChartSegs)
  | warningMsg
  | errorMsg (e : Err)
deriving DecidableEq

/-- Lines 26-28 with the column lookups made explicit: each `df[col]`
fails first if the column is absent, in the order the script reads them. -/
def normalizeT (t : Table) : Except Err (List URec) :=
  if t.cols.contains walksCol then
    if t.cols.contains unitCol then
      if t.cols.contains sectorCol then Except.ok (normalize t.rows)
      else Except.error (Err.keyError sectorCol)
    else Except.error (Err.keyError unitCol)
  else Except.error (Err.keyError walksCol)

/-- Lines 72-108, one iteration per district key.  Returns the events
of the completed iterations and, when an iteration raised, the
exception that ended the loop.  A NaN key raises at line 74 before
rendering anything of its section; a missing `Unit Type` column raises
at line 85, after the expander header of that section is shown. -/
def sections (hasType : Bool) (recs : List URec) (p : Int) :
    List (Option String) → List Event × Option Err
  | [] => ([], none)
  | none :: _ => ([], some Err.typeErrorNan)
  | some s :: ks =>
    if hasType then
      (Event.sectionHeader s (groupOf recs (some s)).length
          (((groupOf recs (some s)).length : Int) * p) (sumWalks (groupOf recs (some s))) ::
        (if (behindOf (groupOf recs (some s)) p).isEmpty then Event.allOnTarget
         else Event.behindTable (behindOf (groupOf recs (some s)) p)) ::
        Event.districtChart (dmName s)
          (buildChart (sumWalks (groupOf recs (some s)))
            (((groupOf recs (some s)).length : Int) * p)) ::
        (sections hasType recs p ks).1,
       (sections hasType recs p ks).2)
    else
      ([Event.sectionHeader s (groupOf recs (some s)).length
          (((groupOf recs (some s)).length : Int) * p) (sumWalks (groupOf recs (some s)))],
       some (Err.keyError typeCol))

/-- The whole request (lines 21-111): normalize, stop with a warning on
an empty frame (line 30-32), read the district column (lines 35-38),
render the overall summary and chart (lines 41-66), then the district
loop; any exception is caught at line 110 and rendered as an error
message after whatever was already on the page. -/
def run (t : Table) (p : Int) : List Event :=
  match normalizeT t with
  | Except.error e => [Event.errorMsg e]
  | Except.ok recs =>
    if recs.isEmpty then [Event.warningMsg]
    else if t.cols.contains districtCol then
      [Event.overallSummary recs.length ((recs.length : Int) * p) (sumWalks recs),
       Event.overallChart (buildChart (sumWalks recs) ((recs.length : Int) * p))] ++
      (sections (t.cols.contains typeCol) recs p (districtsOf recs)).1 ++
      (match (sections (t.cols.contains typeCol) recs p (districtsOf recs)).2 with
       | none => []
       | some e => [Event.errorMsg e])
    else [Event.errorMsg (Err.keyError districtCol)]

/-! Lemmas about the stable sort. -/

theorem insertSorted_perm (le : α → α → Bool) (a : α) :
    ∀ l : List α, List.Perm (insertSorted le a l) (a :: l) := by
  intro l
  induction l with
  | nil => exact List.Perm.refl _
  | cons b t ih =>
    simp only [insertSorted]
    by_cases h : le a b = true
    · rw [if_pos h]
    · rw [if_neg h]
      exact List.Perm.trans (ih.cons b) (List.Perm.swap a b t)

theorem sortStable_perm (le : α → α → Bool) :
    ∀ l : List α, List.Perm (sortStable le l) l := by
  intro l
  induction l with
  | nil => exact List.Perm.refl _
  | cons x xs ih =>
    exact List.Perm.trans (insertSorted_perm le x (sortStable le xs)) (ih.cons x)

theorem mem_insertSorted (le : α → α → Bool) (a x : α) (l : List α) :
    x ∈ insertSorted le a l ↔ x = a ∨ x ∈ l := by
  rw [(insertSorted_perm le a l).mem_iff, List.mem_cons]

theorem mem_sortStable (le : α → α → Bool) (x : α) (l : List α) :
    x ∈ sortStable le l ↔ x ∈ l :=
  (sortStable_perm le l).mem_iff

theorem pairwise_insertSorted (le : α → α → Bool)
    (total : ∀ a b, le a b = true ∨ le b a = true)
    (htrans : ∀ a b c, le a b = true → le b c = true → le a c = true)
    (a : α) :
    ∀ l : List α, l.Pairwise (fun x y => le x y = true) →
      (insertSorted le a l).Pairwise (fun x y => le x y = true) := by
  intro l
  induction l with
  | nil =>
    intro _
    simp [insertSorted]
  | cons b t ih =>
    intro h
    rw [List.pairwise_cons] at h
    obtain ⟨hb, ht⟩ := h
    simp only [insertSorted]
    by_cases hab : le a b = true
    · rw [if_pos hab]
      refine List.Pairwise.cons ?_ (List.Pairwise.cons hb ht)
      intro y hy
      rcases List.mem_cons.mp hy with rfl | hy
      · exact hab
      · exact htrans a b y hab (hb y hy)
    · rw [if_neg hab]
      refine List.Pairwise.cons ?_ (ih ht)
      intro y hy
      rcases (mem_insertSorted le a y t).mp hy with rfl | hy
      · rcases total y b with h | h
        · exact absurd h hab
        · exact h
      · exact hb y hy

theorem pairwise_sortStable (le : α → α → Bool)
    (total : ∀ a b, le a b = true ∨ le b a = true)
    (htrans : ∀ a b c, le a b = true → le b c = true → le a c = true) :
    ∀ l : List α, (sortStable le l).Pairwise (fun x y => le x y = true) := by
  intro l
  induction l with
  | nil => simp [sortStable]
  | cons x xs ih => exact pairwise_insertSorted le total htrans x _ ih

theorem filter_insertSorted (le : α → α → Bool) (p : α → Bool) (a : α)
    (hcl : ∀ b, p a = true → p b = true → le a b = true) :
    ∀ l : List α, (insertSorted le a l).filter p =
      if p a then a :: l.filter p else l.filter p := by
  intro l
  induction l with
  | nil => simp [insertSorted, List.filter_cons]
  | cons b t ih =>
    simp only [insertSorted]
    by_cases hab : le a b = true
    · rw [if_pos hab, List.filter_cons]
    · rw [if_neg hab, List.filter_cons]
      by_cases hpb : p b = true
      · have hpa : p a = false := by
          by_cases hpa : p a = true
          · exact absurd (hcl b hpa hpb) hab
          · exact Bool.eq_false_iff.mpr hpa
        simp [List.filter_cons, hpb, hpa, ih]
      · simp [List.filter_cons, hpb, ih]

theorem filter_sortStable (le : α → α → Bool) (p : α → Bool)
    (hcl : ∀ a b, p a = true → p b = true → le a b = true) :
    ∀ l : List α, (sortStable le l).filter p = l.filter p := by
  intro l
  induction l with
  | nil => rfl
  | cons x xs ih =>
    simp only [sortStable]
    rw [filter_insertSorted le p x (fun b => hcl x b), ih, List.filter_cons]

/-! Lemmas about first-occurrence deduplication. -/

theorem mem_uniqueAux [DecidableEq α] :
    ∀ (l seen : List α) (x : α), x ∈ uniqueAux seen l ↔ x ∈ l ∧ x ∉ seen := by
  intro l
  induction l with
  | nil => simp [uniqueAux]
  | cons a t ih =>
    intro seen x
    simp only [uniqueAux]
    by_cases ha : a ∈ seen
    · rw [if_pos ha, ih]
      constructor
      · rintro ⟨h1, h2⟩
        exact ⟨List.mem_cons_of_mem a h1, h2⟩
      · rintro ⟨h1, h2⟩
        rcases List.mem_cons.mp h1 with rfl | h1
        · exact absurd ha h2
        · exact ⟨h1, h2⟩
    · rw [if_neg ha, List.mem_cons, ih]
      constructor
      · rintro (rfl | ⟨h1, h2⟩)
        · exact ⟨List.mem_cons_self x t, ha⟩
        · exact ⟨List.mem_cons_of_mem a h1, fun hx => h2 (List.mem_cons_of_mem a hx)⟩
      · rintro ⟨hmem, h2⟩
        rcases List.mem_cons.mp hmem with rfl | h1
        · exact Or.inl rfl
        · by_cases hxa : x = a
          · exact Or.inl hxa
          · refine Or.inr ⟨h1, fun hx => ?_⟩
            rcases List.mem_cons.mp hx with h | h
            · exact hxa h
            · exact h2 h

theorem nodup_uniqueAux [DecidableEq α] :
    ∀ (l seen : List α), (uniqueAux seen l).Nodup := by
  intro l
  induction l with
  | nil => intro seen; simp [uniqueAux]
  | cons a t ih =>
    intro seen
    simp only [uniqueAux]
    by_cases ha : a ∈ seen
    · rw [if_pos ha]; exact ih seen
    · rw [if_neg ha, List.nodup_cons]
      refine ⟨fun hmem => ?_, ih (a :: seen)⟩
      exact ((mem_uniqueAux t (a :: seen) a).mp hmem).2 (List.mem_cons_self a seen)

theorem mem_uniqueFirst [DecidableEq α] (l : List α) (x : α) :
    x ∈ uniqueFirst l ↔ x ∈ l := by
  rw [uniqueFirst, mem_uniqueAux]
  simp

theorem nodup_uniqueFirst [DecidableEq α] (l : List α) : (uniqueFirst l).Nodup :=
  nodup_uniqueAux l []

/-! Partitioning a sum over the distinct key values. -/

theorem sum_map_filter_partition {α M K : Type} [AddCommMonoid M] [DecidableEq K]
    (key : α → K) (f : α → M) :
    ∀ (keys : List K) (l : List α), keys.Nodup → (∀ x ∈ l, key x ∈ keys) →
      (keys.map (fun k => ((l.filter (fun x => decide (key x = k))).map f).sum)).sum
        = (l.map f).sum := by
  intro keys
  induction keys with
  | nil =>
    intro l _ hcov
    cases l with
    | nil => simp
    | cons x xs => exact absurd (hcov x (List.mem_cons_self x xs)) (List.not_mem_nil _)
  | cons k ks ih =>
    intro l hnd hcov
    rw [List.nodup_cons] at hnd
    obtain ⟨hk, hnd⟩ := hnd
    simp only [List.map_cons, List.sum_cons]
    have hmap : ks.map (fun k' => ((l.filter (fun x => decide (key x = k'))).map f).sum)
        = ks.map (fun k' =>
            (((l.filter (fun x => !(decide (key x = k)))).filter
              (fun x => decide (key x = k'))).map f).sum) := by
      apply List.map_congr_left
      intro k' hk'
      rw [List.filter_filter]
      have : l.filter (fun x => decide (key x = k')) =
          l.filter (fun x => decide (key x = k') && !(decide (key x = k))) := by
        apply List.filter_congr
        intro x _
        by_cases h : key x = k'
        · have hkk : ¬ k' = k := fun he => hk (he ▸ hk')
          simp [h, hkk]
        · simp [h]
      rw [← this]
    rw [hmap, ih (l.filter (fun x => !(decide (key x = k)))) hnd ?_]
    · have hperm : List.Perm
          (l.filter (fun x => decide (key x = k)) ++
            l.filter (fun x => !(decide (key x = k)))) l :=
        List.filter_append_perm _ l
      have := (hperm.map f).sum_eq
      rw [List.map_append, List.sum_append] at this
      exact this
    · intro x hx
      rw [List.mem_filter] at hx
      rcases List.mem_cons.mp (hcov x hx.1) with h | h
      · exfalso
        have := hx.2
        simp [h] at this
      · exact h

/-! The lexicographic comparison is reflexive, total and transitive. -/

theorem lexLe_refl : ∀ l : List Char, lexLe l l = true := by
  intro l
  induction l with
  | nil => rfl
  | cons x xs ih => simp only [lexLe, if_pos rfl]; exact ih

theorem lexLe_total : ∀ a b : List Char, lexLe a b = true ∨ lexLe b a = true := by
  intro a
  induction a with
  | nil => intro b; exact Or.inl rfl
  | cons x xs ih =>
    intro b
    cases b with
    | nil => exact Or.inr rfl
    | cons y ys =>
      simp only [lexLe]
      by_cases hxy : x = y
      · subst hxy
        rw [if_pos rfl, if_pos rfl]
        exact ih ys
      · rw [if_neg hxy, if_neg (fun h => hxy h.symm)]
        rcases lt_or_gt_of_ne hxy with h | h
        · exact Or.inl (decide_eq_true h)
        · exact Or.inr (decide_eq_true h)

theorem lexLe_trans :
    ∀ a b c : List Char, lexLe a b = true → lexLe b c = true → lexLe a c = true := by
  intro a
  induction a with
  | nil => intro b c _ _; rfl
  | cons x xs ih =>
    intro b c hab hbc
    cases b with
    | nil => simp [lexLe] at hab
    | cons y ys =>
      cases c with
      | nil => simp [lexLe] at hbc
      | cons z zs =>
        simp only [lexLe] at hab hbc ⊢
        by_cases hxy : x = y
        · subst hxy
          rw [if_pos rfl] at hab
          by_cases hyz : x = z
          · subst hyz
            rw [if_pos rfl] at hbc ⊢
            exact ih ys zs hab hbc
          · rw [if_neg hyz] at hbc ⊢
            exact hbc
        · rw [if_neg hxy] at hab
          have hlt : x < y := of_decide_eq_true hab
          by_cases hyz : y = z
          · subst hyz
            rw [if_neg hxy]
            exact hab
          · rw [if_neg hyz] at hbc
            have hlt2 : y < z := of_decide_eq_true hbc
            have hxz : x < z := lt_trans hlt hlt2
            rw [if_neg (ne_of_lt hxz)]
            exact decide_eq_true hxz

theorem keyLe_total : ∀ a b : Option String, keyLe a b = true ∨ keyLe b a = true :=
  fun a b => lexLe_total (districtKey a).toList (districtKey b).toList

theorem keyLe_trans :
    ∀ a b c : Option String, keyLe a b = true → keyLe b c = true → keyLe a c = true :=
  fun _ _ _ hab hbc => lexLe_trans _ _ _ hab hbc

/-! Concrete rows used by witnesses and counterexamples. -/

/-- A regular retained row: behind target for targets above 2. -/
def goodRow : Row :=
  ⟨some ("U1"), some ("01-Ops"), some ("D1-Smith"), some ("Retail"), RawWalks.num 2⟩

/-- A row carrying a negative numeric walks value. -/
def negRow : Row :=
  ⟨some ("U3"), some ("01-Ops"), some ("D1-Smith"), some ("Retail"), RawWalks.num (-2)⟩

/-- A row whose walks cell holds non-numeric text. -/
def nonNumRow : Row :=
  ⟨some ("U4"), some ("01-Ops"), some ("D1-Smith"), some ("Retail"), RawWalks.nonNum⟩

/-- A row whose unit label is the empty string (not NaN). -/
def emptyLabelRow : Row :=
  ⟨some (""), some ("01-Ops"), some ("D1-Smith"), some ("Retail"), RawWalks.num 1⟩

/-- An excluded-sector row. -/
def essRow : Row :=
  ⟨some ("U2"), some ("06-ESS Support Services"), some ("D1-Smith"), some ("Retail"),
    RawWalks.num 5⟩

/-! Claim theorems. -/

/-- Claim C4: for every aggregate the chart-segment builder computes
completed = min(actual, target), excess = max(actual - target, 0),
remaining = max(target - actual, 0); it emits the (On Target, Excess)
pair iff excess is positive and the (Completed, Remaining) pair
otherwise, and the emitted segments satisfy completed + excess = actual
when excess is positive, else completed + remaining = target and
completed = actual. -/
theorem chart_builder_correct (a t : Int) :
    (0 < max (a - t) 0 →
      buildChart a t = ChartSegs.excessMode (min a t) (max (a - t) 0) ∧
      min a t + max (a - t) 0 = a) ∧
    (¬ 0 < max (a - t) 0 →
      buildChart a t = ChartSegs.normalMode (min a t) (max (t - a) 0) ∧
      min a t + max (t - a) 0 = t ∧ min a t = a) := by
  constructor
  · intro h
    refine ⟨?_, ?_⟩
    · unfold buildChart
      rw [if_pos h]
    · omega
  · intro h
    refine ⟨?_, ?_, ?_⟩
    · unfold buildChart
      rw [if_neg h]
    · omega
    · omega

/-- Witness for C4 at actual 5, target 3 (the excess branch). -/
theorem chart_builder_correct_witness :
    buildChart 5 3 = ChartSegs.excessMode (min 5 3) (max (5 - 3) 0) ∧
    min (5 : Int) 3 + max (5 - 3) 0 = 5 :=
  (chart_builder_correct 5 3).1 (by decide)

/-- Claim C5: districts are presented as the distinct district keys (in
first-occurrence order) sorted by the derived display key — text after
the last dash, trimmed, for keys with a dash; the full value otherwise
— under code-point lexicographic order, and the sort is stable: keys
with equal display keys stay in original first-occurrence order. -/
theorem district_order (recs : List URec) :
    List.Perm (districtsOf recs) (uniqueFirst (recs.map (fun r => r.district))) ∧
    (districtsOf recs).Pairwise
      (fun a b => lexLe (districtKey a).toList (districtKey b).toList = true) ∧
    ∀ s : String,
      (districtsOf recs).filter (fun k => decide (districtKey k = s)) =
        (uniqueFirst (recs.map (fun r => r.district))).filter
          (fun k => decide (districtKey k = s)) := by
  refine ⟨sortStable_perm keyLe _,
    pairwise_sortStable keyLe keyLe_total keyLe_trans _, ?_⟩
  intro s
  apply filter_sortStable
  intro a b ha hb
  have ha' : districtKey a = s := of_decide_eq_true ha
  have hb' : districtKey b = s := of_decide_eq_true hb
  unfold keyLe
  rw [ha', hb']
  exact lexLe_refl _

/-- Claim C3 (amended): a retained record's walks count is exactly the
numeric coercion of the raw cell — non-numeric text and blank cells
coerce to 0 and never to an error; numeric cells pass through, so a
negative numeric cell yields a negative value. -/
theorem walks_coercion (rows : List Row) (r : URec) (hr : r ∈ normalize rows) :
    r.walks = toWalks r.walksRaw ∧
    (r.walksRaw = RawWalks.nonNum → r.walks = 0) ∧
    (r.walksRaw = RawWalks.missing → r.walks = 0) := by
  have hw : r.walks = toWalks r.walksRaw := by
    unfold normalize at hr
    rw [List.mem_filter] at hr
    obtain ⟨h1, _⟩ := hr
    rw [List.mem_filter] at h1
    obtain ⟨hmap, _⟩ := h1
    rw [List.mem_map] at hmap
    obtain ⟨row, _, rfl⟩ := hmap
    rfl
  exact ⟨hw, fun h => by rw [hw, h]; rfl, fun h => by rw [hw, h]; rfl⟩

/-- Counterexample to claim C3 as stated: a retained row whose raw walks
cell is the numeric value -2 keeps the negative value, so a retained
walks count is not always non-negative. -/
theorem walks_nonneg_cex : ¬ (∀ r ∈ normalize [negRow], 0 ≤ r.walks) := by
  decide

/-- Witness for C3 (amended): a retained non-numeric cell coerces to 0. -/
theorem walks_coercion_witness : (mkRec nonNumRow).walks = 0 :=
  (walks_coercion [nonNumRow] (mkRec nonNumRow) (by decide)).2.1 rfl

/-- Claim C7: a label-retained row survives the sector filter iff its
sector name does not start with the excluded marker (case-sensitive
prefix match on code points); a NaN sector is treated as not matching
and kept; no retained record's sector starts with the marker. -/
theorem sector_filter_correct (rows : List Row) (r : URec) :
    (r ∈ normalize rows ↔
      r ∈ (rows.map mkRec).filter (fun x => x.unitLabel.isSome) ∧ isEss r = false) ∧
    (r ∈ normalize rows → ∀ s, r.sectorName = some s →
      "06-ESS".toList.isPrefixOf s.toList = false) ∧
    (r.sectorName = none →
      r ∈ (rows.map mkRec).filter (fun x => x.unitLabel.isSome) →
      r ∈ normalize rows) := by
  have hmem : r ∈ normalize rows ↔
      r ∈ (rows.map mkRec).filter (fun x => x.unitLabel.isSome) ∧ isEss r = false := by
    unfold normalize
    rw [List.mem_filter]
    simp [Bool.not_eq_true']
  refine ⟨hmem, ?_, ?_⟩
  · intro hr s hs
    have h := (hmem.mp hr).2
    unfold isEss at h
    rw [hs] at h
    exact h
  · intro hnone hr
    rw [hmem]
    refine ⟨hr, ?_⟩
    unfold isEss
    rw [hnone]

/-- Witness for C7: the retained example row's sector does not start
with the excluded marker. -/
theorem sector_filter_witness : "06-ESS".toList.isPrefixOf ("01-Ops").toList = false :=
  (sector_filter_correct [goodRow] (mkRec goodRow)).2.1 (by decide) ("01-Ops") rfl

/-- Counterexample to claim C8 as stated: a row whose unit label is the
empty string is retained — line 27 only drops NaN labels, not empty
ones. -/
theorem empty_label_kept_cex :
    mkRec emptyLabelRow ∈ normalize [emptyLabelRow] ∧
    emptyLabelRow.unitLabel = some ("") := by
  decide

/-- Claim C8 (amended): every row whose unit label is null (NaN) is
dropped silently, and such rows are absent from every district group
and every behind-target list; empty-string labels are retained. -/
theorem null_label_absent (rows : List Row) (r : URec) :
    (r ∈ normalize rows → r.unitLabel.isSome) ∧
    (∀ k, r ∈ groupOf (normalize rows) k → r.unitLabel.isSome) ∧
    (∀ k p, r ∈ behindOf (groupOf (normalize rows) k) p → r.unitLabel.isSome) := by
  have base : r ∈ normalize rows → r.unitLabel.isSome = true := by
    intro hr
    unfold normalize at hr
    rw [List.mem_filter] at hr
    obtain ⟨h1, _⟩ := hr
    rw [List.mem_filter] at h1
    exact h1.2
  refine ⟨base, ?_, ?_⟩
  · intro k hk
    unfold groupOf at hk
    rw [List.mem_filter] at hk
    exact base hk.1
  · intro k p hb
    unfold behindOf at hb
    rw [mem_sortStable, List.mem_filter] at hb
    obtain ⟨hg, _⟩ := hb
    unfold groupOf at hg
    rw [List.mem_filter] at hg
    exact base hg.1

/-- Witness for C8 (amended): the example retained record has a present
unit label wherever it appears. -/
theorem null_label_absent_witness : (mkRec goodRow).unitLabel.isSome = true :=
  (null_label_absent [goodRow] (mkRec goodRow)).2.2 (some ("D1-Smith")) 3 (by decide)

/-- A row in a second district. -/
def jonesRow : Row :=
  ⟨some ("U5"), some ("01-Ops"), some ("D2-Jones"), some ("Retail"), RawWalks.num 7⟩

/-- All five columns the script reads. -/
def fullCols : List String := [unitCol, sectorCol, districtCol, typeCol, walksCol]

/-- A sheet lacking only the Unit Type column. -/
def missingTypeTable : Table := ⟨[unitCol, sectorCol, districtCol, walksCol], [goodRow]⟩

/-- Record set used by the C2 witness. -/
def wrecs : List URec := [mkRec goodRow, mkRec jonesRow, mkRec negRow]

/-- Summing the constant 1 over a list counts its elements. -/
theorem sum_map_one (l : List α) : (l.map (fun _ => (1 : Nat))).sum = l.length := by
  induction l with
  | nil => rfl
  | cons x xs ih => simp [ih, Nat.add_comm]

/-- Claim C2: whenever every retained record has a present district key
(a NaN key would instead abort the district loop with a TypeError at
line 74, so no complete aggregate set exists), the per-district unit
counts sum to the overall unit count and the per-district actual totals
sum to the overall actual total. -/
theorem district_totals_partition (recs : List URec)
    (h : ∀ r ∈ recs, r.district.isSome) :
    ((districtsOf recs).map (fun k => (groupOf recs k).length)).sum = recs.length ∧
    ((districtsOf recs).map (fun k => sumWalks (groupOf recs k))).sum = sumWalks recs := by
  have hgrp : ∀ k, groupOf recs k = recs.filter (fun r => decide (r.district = k)) := by
    intro k
    unfold groupOf
    apply List.filter_congr
    intro r hr
    have hs := h r hr
    cases hd : r.district with
    | none => rw [hd] at hs; simp at hs
    | some a =>
      cases k with
      | none => simp [eqPandas]
      | some b => simp [eqPandas]
  have hperm := sortStable_perm keyLe (uniqueFirst (recs.map (fun r => r.district)))
  have hnd := nodup_uniqueFirst (recs.map (fun r => r.district))
  have hcov : ∀ r ∈ recs, r.district ∈ uniqueFirst (recs.map (fun r => r.district)) := by
    intro r hr
    rw [mem_uniqueFirst]
    exact List.mem_map_of_mem _ hr
  constructor
  · have h1 := sum_map_filter_partition (fun r : URec => r.district) (fun _ => (1 : Nat))
      (uniqueFirst (recs.map (fun r => r.district))) recs hnd hcov
    have e1 : ((districtsOf recs).map (fun k => (groupOf recs k).length)).sum
        = ((uniqueFirst (recs.map (fun r => r.district))).map
            (fun k => (groupOf recs k).length)).sum :=
      (hperm.map (fun k => (groupOf recs k).length)).sum_eq
    rw [e1]
    have e2 : (uniqueFirst (recs.map (fun r => r.district))).map
          (fun k => (groupOf recs k).length)
        = (uniqueFirst (recs.map (fun r => r.district))).map
            (fun k => ((recs.filter (fun r => decide (r.district = k))).map
              (fun _ => (1 : Nat))).sum) := by
      apply List.map_congr_left
      intro k _
      rw [hgrp k, sum_map_one]
    rw [e2, h1, sum_map_one]
  · have h2 := sum_map_filter_partition (fun r : URec => r.district) (fun r => r.walks)
      (uniqueFirst (recs.map (fun r => r.district))) recs hnd hcov
    have e1 : ((districtsOf recs).map (fun k => sumWalks (groupOf recs k))).sum
        = ((uniqueFirst (recs.map (fun r => r.district))).map
            (fun k => sumWalks (groupOf recs k))).sum :=
      (hperm.map (fun k => sumWalks (groupOf recs k))).sum_eq
    rw [e1]
    have e2 : (uniqueFirst (recs.map (fun r => r.district))).map
          (fun k => sumWalks (groupOf recs k))
        = (uniqueFirst (recs.map (fun r => r.district))).map
            (fun k => ((recs.filter (fun r => decide (r.district = k))).map
              (fun r => r.walks)).sum) := by
      apply List.map_congr_left
      intro k _
      rw [hgrp k]
      rfl
    rw [e2, h2]
    rfl

/-- Witness for C2 on a three-record, two-district input. -/
theorem district_totals_partition_witness :
    ((districtsOf wrecs).map (fun k => (groupOf wrecs k).length)).sum = wrecs.length ∧
    ((districtsOf wrecs).map (fun k => sumWalks (groupOf wrecs k))).sum = sumWalks wrecs :=
  district_totals_partition wrecs (by decide)

/-- The run on a sheet whose normalization raises. -/
theorem run_error (t : Table) (p : Int) (e : Err)
    (h : normalizeT t = Except.error e) :
    run t p = [Event.errorMsg e] := by
  unfold run
  rw [h]

/-- The run on a sheet whose normalization succeeds. -/
theorem run_ok (t : Table) (p : Int) (recs : List URec)
    (h : normalizeT t = Except.ok recs) :
    run t p =
      if recs.isEmpty then [Event.warningMsg]
      else if t.cols.contains districtCol then
        [Event.overallSummary recs.length ((recs.length : Int) * p) (sumWalks recs),
         Event.overallChart (buildChart (sumWalks recs) ((recs.length : Int) * p))] ++
        (sections (t.cols.contains typeCol) recs p (districtsOf recs)).1 ++
        (match (sections (t.cols.contains typeCol) recs p (districtsOf recs)).2 with
         | none => []
         | some e => [Event.errorMsg e])
      else [Event.errorMsg (Err.keyError districtCol)] := by
  unfold run
  rw [h]

/-- Claim C9: when every row is filtered out, the script renders the
empty-data warning and stops before aggregation: no summary, no
sections, no error. -/
theorem empty_result_warning (t : Table) (p : Int)
    (h : normalizeT t = Except.ok []) :
    run t p = [Event.warningMsg] := by
  rw [run_ok t p [] h]
  rfl

/-- Witness for C9: a sheet whose only row is in the excluded sector. -/
theorem empty_result_warning_witness :
    run ⟨fullCols, [essRow]⟩ 3 = [Event.warningMsg] :=
  empty_result_warning ⟨fullCols, [essRow]⟩ 3 (by rfl)

/-- Claim C6 (amended): when the walks column is absent, the script
fails with a column-lookup error before any row is processed and
renders nothing else.  (As stated the claim is false for other
columns: see the counterexample, where a partial report precedes the
error.) -/
theorem missing_walks_column_error (t : Table) (p : Int)
    (h : t.cols.contains walksCol = false) :
    run t p = [Event.errorMsg (Err.keyError walksCol)] := by
  have hn : normalizeT t = Except.error (Err.keyError walksCol) := by
    unfold normalizeT
    rw [h]
    rfl
  exact run_error t p _ hn

/-- Witness for C6 (amended): a sheet with no columns at all. -/
theorem missing_walks_column_error_witness :
    run ⟨[], [goodRow]⟩ 3 = [Event.errorMsg (Err.keyError walksCol)] :=
  missing_walks_column_error ⟨[], [goodRow]⟩ 3 (by decide)

/-- Counterexample to claim C6 as stated: with the Unit Type column
missing, the overall summary and a section header are rendered before
the failure at line 85, so the error is neither raised before row
processing nor free of a partial report. -/
theorem missing_column_partial_report_cex :
    typeCol ∉ missingTypeTable.cols ∧
    run missingTypeTable 3 =
      [Event.overallSummary 1 3 2, Event.overallChart (ChartSegs.normalMode 2 1),
       Event.sectionHeader ("D1-Smith") 1 3 2, Event.errorMsg (Err.keyError typeCol)] := by
  decide

/-- The unit count carried by a district section header, if any. -/
def unitsOfEvent : Event → Option Nat
  | .sectionHeader _ u _ _ => some u
  | _ => none

/-- Every section the district loop emits reports the unit count of a
group containing at least one record. -/
theorem sections_units (hasType : Bool) (recs : List URec) (p : Int) :
    ∀ ks : List (Option String),
      (∀ s : String, some s ∈ ks → ∃ r ∈ recs, r.district = some s) →
      ∀ e ∈ (sections hasType recs p ks).1, ∀ u, unitsOfEvent e = some u → 1 ≤ u := by
  intro ks
  induction ks with
  | nil =>
    intro _ e he
    simp [sections] at he
  | cons k ks ih =>
    intro hk e he u hu
    cases k with
    | none => simp [sections] at he
    | some s =>
      have hg : 1 ≤ (groupOf recs (some s)).length := by
        obtain ⟨r, hr, hd⟩ := hk s (List.mem_cons_self _ _)
        have hmem : r ∈ groupOf recs (some s) := by
          unfold groupOf
          rw [List.mem_filter]
          refine ⟨hr, ?_⟩
          rw [hd]
          simp [eqPandas]
        exact List.length_pos.mpr (List.ne_nil_of_mem hmem)
      by_cases ht : hasType = true
      · subst ht
        simp only [sections, if_true, List.mem_cons] at he
        rcases he with rfl | rfl | rfl | he
        · simp only [unitsOfEvent, Option.some.injEq] at hu
          rw [← hu]
          exact hg
        · by_cases hbe : (behindOf (groupOf recs (some s)) p).isEmpty = true
          · rw [if_pos hbe] at hu
            simp [unitsOfEvent] at hu
          · rw [if_neg hbe] at hu
            simp [unitsOfEvent] at hu
        · simp [unitsOfEvent] at hu
        · exact ih (fun s' hs' => hk s' (List.mem_cons_of_mem _ hs')) e he u hu
      · have ht' : hasType = false := Bool.eq_false_iff.mpr ht
        subst ht'
        simp only [sections, Bool.false_eq_true, if_false, List.mem_singleton] at he
        subst he
        simp only [unitsOfEvent, Option.some.injEq] at hu
        rw [← hu]
        exact hg

/-- Claim C10: every DistrictAggregate the script presents has a unit
count of at least 1 — groups are formed only from district keys that
occur among the retained records, and a key occurring at all has at
least one matching record. -/
theorem district_sections_nonempty (t : Table) (p : Int) (e : Event)
    (he : e ∈ run t p) (u : Nat) (hu : unitsOfEvent e = some u) : 1 ≤ u := by
  cases hnt : normalizeT t with
  | error er =>
    rw [run_error t p er hnt] at he
    simp only [List.mem_singleton] at he
    subst he
    simp [unitsOfEvent] at hu
  | ok recs =>
    rw [run_ok t p recs hnt] at he
    by_cases hemp : recs.isEmpty = true
    · rw [if_pos hemp] at he
      simp only [List.mem_singleton] at he
      subst he
      simp [unitsOfEvent] at hu
    · rw [if_neg hemp] at he
      by_cases hdc : t.cols.contains districtCol = true
      · rw [if_pos hdc] at he
        simp only [List.mem_append, List.mem_cons, List.not_mem_nil, or_false,
          List.mem_singleton] at he
        rcases he with ((rfl | rfl) | hsec) | herr
        · simp [unitsOfEvent] at hu
        · simp [unitsOfEvent] at hu
        · refine sections_units (t.cols.contains typeCol) recs p (districtsOf recs)
            ?_ e hsec u hu
          intro s hs
          unfold districtsOf at hs
          rw [mem_sortStable, mem_uniqueFirst, List.mem_map] at hs
          exact hs
        · cases hs2 : (sections (t.cols.contains typeCol) recs p (districtsOf recs)).2 with
          | none =>
            rw [hs2] at herr
            simp at herr
          | some er =>
            rw [hs2] at herr
            simp only [List.mem_singleton] at herr
            subst herr
            simp [unitsOfEvent] at hu
      · rw [if_neg hdc] at he
        simp only [List.mem_singleton] at he
        subst he
        simp [unitsOfEvent] at hu

/-- Witness for C10: the section header of the one-district example
reports one unit, and the theorem yields its positivity. -/
theorem district_sections_nonempty_witness :
    Event.sectionHeader ("D1-Smith") 1 3 2 ∈ run ⟨fullCols, [goodRow]⟩ 3 ∧ 1 ≤ 1 :=
  ⟨by decide,
    district_sections_nonempty ⟨fullCols, [goodRow]⟩ 3
      (Event.sectionHeader ("D1-Smith") 1 3 2) (by decide) 1 rfl⟩

/-- Sanity check: the worked example of the specification.  Rows U1
(retained), U2 (excluded sector) and a null-label row, with target 3:
the retained set is U1 alone; overall one unit, target 3, actual 2;
district D1-Smith shows U1 behind target and the segments 2 completed,
1 remaining. -/
theorem spec_worked_example :
    normalize [goodRow, essRow,
        ⟨none, some ("01-Ops"), some ("D2-Jones"), some ("Retail"), RawWalks.num 1⟩] =
      [mkRec goodRow] ∧
    run ⟨fullCols, [goodRow, essRow,
        ⟨none, some ("01-Ops"), some ("D2-Jones"), some ("Retail"), RawWalks.num 1⟩]⟩ 3 =
      [Event.overallSummary 1 3 2, Event.overallChart (ChartSegs.normalMode 2 1),
       Event.sectionHeader ("D1-Smith") 1 3 2, Event.behindTable [mkRec goodRow],
       Event.districtChart ("Smith") (ChartSegs.normalMode 2 1)] := by
  decide

end SafetyWalks
